import Mathlib

/-!
Verification of the generic backend base class (`src/core/BaseService.ts`) of the
Ignitor scaffold: the SSE channel registry and broadcast engine, pagination
normalization, error mapping, soft delete, filter composition and slug generation.

The TypeScript code is shallowly embedded: JS objects used as JSON values become
an inductive `JsVal`; the `Map<string, Response[]>` of SSE clients becomes an
association list keyed by channel name with JS `Map` get/set/delete semantics;
an Express `Response` stream handle becomes a `Handle` carrying its identity,
its `destroyed` / `writableEnded` flags, whether a `write` call on it succeeds
(the `try/catch` branch in the source), and the string of bytes written so far.
The Prisma store (an external collaborator of the repository) is modelled as a
list of records with first-match `findFirst` / in-place `update` semantics.
-/

namespace Ignitor

/-- JS values as used by the service: JSON payloads, filter objects, query
objects. Objects are ordered association lists, mirroring JS property order. -/
inductive JsVal : Type where
  | null : JsVal
  | bool : Bool → JsVal
  | num : Int → JsVal
  | str : String → JsVal
  | arr : List JsVal → JsVal
  | obj : List (String × JsVal) → JsVal
deriving Repr, BEq

/-- Decimal digits of `n`, least significant first; `fuel` bounds the recursion
(`n + 1` always suffices). Mirrors the standard decimal rendering that JS
template literals (`` `${counter}` ``) and `JSON.stringify` perform. -/
def natDigitsAux : Nat → Nat → List Char
  | 0, _ => []
  | _ + 1, 0 => []
  | fuel + 1, n => Nat.digitChar (n % 10) :: natDigitsAux fuel (n / 10)

/-- Decimal rendering of a natural number, as JS renders numbers. -/
def natToString (n : Nat) : String :=
  if n = 0 then "0" else String.mk (natDigitsAux (n + 1) n).reverse

/-- Decimal rendering of an integer, as JS renders numbers. -/
def intToString (n : Int) : String :=
  if n < 0 then "-" ++ natToString n.natAbs else natToString n.toNat

/-- JSON string escaping for one character (the cases `JSON.stringify`
escapes that can occur in this development: quote, backslash, newline). -/
def jsonEscapeChar (c : Char) : String :=
  if c = '"' then "\\\"" else if c = '\\' then "\\\\"
  else if c = '\n' then "\\n" else String.singleton c

/-- JSON string escaping. -/
def jsonEscape (s : String) : String :=
  String.join (s.data.map jsonEscapeChar)

mutual

/-- `JSON.stringify` on the embedded JS values. -/
def JsVal.stringify : JsVal → String
  | .null => "null"
  | .bool b => if b then "true" else "false"
  | .num n => intToString n
  | .str s => "\"" ++ jsonEscape s ++ "\""
  | .arr xs => "[" ++ JsVal.stringifyArr xs ++ "]"
  | .obj fs => "\x7b" ++ JsVal.stringifyObj fs ++ "\x7d"

/-- Comma-separated stringification of array elements. -/
def JsVal.stringifyArr : List JsVal → String
  | [] => ""
  | [x] => x.stringify
  | x :: y :: xs => x.stringify ++ "," ++ JsVal.stringifyArr (y :: xs)

/-- Comma-separated stringification of object fields. -/
def JsVal.stringifyObj : List (String × JsVal) → String
  | [] => ""
  | [(k, v)] => "\"" ++ jsonEscape k ++ "\":" ++ v.stringify
  | (k, v) :: f :: fs =>
    "\"" ++ jsonEscape k ++ "\":" ++ v.stringify ++ "," ++ JsVal.stringifyObj (f :: fs)

end

/-- `BaseServiceOptions` with the defaults set in the constructor
(`enableSoftDelete: false, enableAuditFields: false, enableSSE: false,
defaultPageSize: 10, maxPageSize: 1000`). -/
structure BaseServiceOptions where
  enableSoftDelete : Bool := false
  enableAuditFields : Bool := false
  enableSSE : Bool := false
  defaultPageSize : Int := 10
  maxPageSize : Int := 1000
deriving Repr, DecidableEq

/-- One SSE client stream (an Express `Response`): its identity (JS object
identity, used by `indexOf`), the `destroyed` and `writableEnded` flags the
broadcast loop inspects, whether a `write` call succeeds (`writeOk = false`
models `client.write` throwing, the `catch` branch), and the bytes written to
the stream so far. -/
structure Handle where
  hid : Nat
  destroyed : Bool := false
  writableEnded : Bool := false
  writeOk : Bool := true
  written : String := ""
deriving Repr, DecidableEq

/-- A handle is dead when the pre-write check `client.destroyed ||
client.writableEnded` fires. -/
def Handle.isDead (h : Handle) : Bool :=
  h.destroyed || h.writableEnded

/-- The `sseClients : Map<string, Response[]>` registry, as an association
list from channel name to the channel's array of handles. -/
abbrev Registry : Type := List (String × List Handle)

/-- `Map.get`: value of the first entry with the given key. -/
def mapGet (reg : Registry) (channel : String) : Option (List Handle) :=
  (reg.find? (fun e => e.1 = channel)).map (·.2)

/-- `Map.set`: replace the value of the existing entry, else append a new one. -/
def mapSet (reg : Registry) (channel : String) (v : List Handle) : Registry :=
  match reg with
  | [] => [(channel, v)]
  | e :: rest =>
    if e.1 = channel then (channel, v) :: rest else e :: mapSet rest channel v

/-- `Map.delete`: remove the entry with the given key. -/
def mapDelete (reg : Registry) (channel : String) : Registry :=
  reg.filter (fun e => !(e.1 = channel : Bool))

/-- `getActiveChannels`: `Array.from(this.sseClients.keys())`. -/
def getActiveChannels (reg : Registry) : List String :=
  reg.map (·.1)

/-- `getChannelClientCount`: `(this.sseClients.get(channel) || []).length`. -/
def getChannelClientCount (reg : Registry) (channel : String) : Nat :=
  ((mapGet reg channel).getD []).length

/-- `Array.prototype.indexOf` by identity: index of the first handle with the
given identity. -/
def idxOf? (clients : List Handle) (clientId : Nat) : Option Nat :=
  clients.findIdx? (fun h => h.hid = clientId)

/-- `removeSSEClient(channel, client)`: look the channel's array up, find the
client by identity, splice it out; delete the channel entry when the array
becomes empty, else store the shortened array back. -/
def removeSSEClient (opts : BaseServiceOptions) (reg : Registry)
    (channel : String) (clientId : Nat) : Registry :=
  if !opts.enableSSE then reg else
  let clients := (mapGet reg channel).getD []
  match idxOf? clients clientId with
  | none => reg
  | some i =>
    let clients' := clients.eraseIdx i
    if clients'.isEmpty then mapDelete reg channel
    else mapSet reg channel clients'

/-- The `SSEEvent` record constructed at the start of `broadcastToChannel`. -/
structure SSEEvent where
  event : String
  data : JsVal
  timestamp : String
  channel : String
deriving Repr

/-- The two-line SSE frame one broadcast writes to one live handle:
`event: <eventType>\n` then `data: <JSON payload>\n\n`. -/
def sseFrame (eventType : String) (data : JsVal) : String :=
  "event: " ++ eventType ++ "\n" ++ "data: " ++ data.stringify ++ "\n\n"

/-- Append one broadcast's frame to a handle's stream. -/
def writeFrame (eventType : String) (data : JsVal) (h : Handle) : Handle :=
  { h with written := h.written ++ sseFrame eventType data }

/-- One step of the `clients.forEach` loop in `broadcastToChannel`: a dead
handle is skipped and collected for removal; a live handle is written the
frame; a live handle whose write throws is collected for removal. Returns the
(possibly written-to) handle and whether it was classified dead. -/
def broadcastStep (eventType : String) (data : JsVal) (h : Handle) : Handle × Bool :=
  if h.isDead then (h, true)
  else if h.writeOk then (writeFrame eventType data h, false)
  else (h, true)

/-- `broadcastToChannel(channel, eventType, data)`: construct the event,
iterate the channel's handles writing to live ones and collecting dead ones,
then remove every dead handle via `removeSSEClient`. `nowIso` is the
`new Date().toISOString()` timestamp stored in the event record (never
serialized into the frame). When the channel has no entry the `|| []`
fallback makes the loop a no-op and nothing is stored. -/
def broadcastToChannel (opts : BaseServiceOptions) (reg : Registry)
    (channel : String) (eventType : String) (data : JsVal) (nowIso : String) :
    Registry :=
  if !opts.enableSSE then reg else
  let event : SSEEvent :=
    { event := eventType, data := data, timestamp := nowIso, channel := channel }
  match mapGet reg channel with
  | none => reg
  | some clients =>
    let results := clients.map (broadcastStep event.event event.data)
    let clients' := results.map (·.1)
    let deadIds := (results.filter (·.2)).map (·.1.hid)
    let reg' := mapSet reg channel clients'
    deadIds.foldl (fun r cid => removeSSEClient opts r channel cid) reg'

/-- `broadcastToChannels(channels, eventType, data)`: one broadcast per
channel, in order. -/
def broadcastToChannels (opts : BaseServiceOptions) (reg : Registry)
    (channels : List String) (eventType : String) (data : JsVal)
    (nowIso : String) : Registry :=
  channels.foldl (fun r c => broadcastToChannel opts r c eventType data nowIso) reg

/-! ### Map algebra for the channel registry -/

theorem mapGet_set_self (reg : Registry) (k : String) (v : List Handle) :
    mapGet (mapSet reg k v) k = some v := by
  induction reg with
  | nil => simp [mapGet, mapSet]
  | cons e rest ih =>
    by_cases h : e.1 = k
    · simp [mapGet, mapSet, h]
    · simp only [mapSet, if_neg h]
      simpa [mapGet, List.find?_cons, h] using ih

theorem mapGet_set_ne (reg : Registry) (k k' : String) (v : List Handle)
    (hne : k' ≠ k) : mapGet (mapSet reg k v) k' = mapGet reg k' := by
  induction reg with
  | nil => simp [mapGet, mapSet, List.find?, Ne.symm hne]
  | cons e rest ih =>
    by_cases h : e.1 = k
    · subst h
      simp [mapGet, mapSet, List.find?_cons, Ne.symm hne]
    · simp only [mapSet, if_neg h]
      by_cases h' : e.1 = k'
      · simp [mapGet, List.find?_cons, h']
      · simpa [mapGet, List.find?_cons, h'] using ih

theorem mapGet_delete_ne (reg : Registry) (k k' : String) (hne : k' ≠ k) :
    mapGet (mapDelete reg k) k' = mapGet reg k' := by
  induction reg with
  | nil => rfl
  | cons e rest ih =>
    by_cases h : e.1 = k
    · have hk' : e.1 ≠ k' := by rw [h]; exact Ne.symm hne
      have hd : mapDelete (e :: rest) k = mapDelete rest k := by
        simp [mapDelete, List.filter_cons, h]
      rw [hd, ih]
      unfold mapGet
      rw [List.find?_cons_of_neg _ (by simpa using hk')]
    · have hd : mapDelete (e :: rest) k = e :: mapDelete rest k := by
        simp [mapDelete, List.filter_cons, h]
      rw [hd]
      by_cases h' : e.1 = k'
      · unfold mapGet
        rw [List.find?_cons_of_pos _ (by simpa using h'),
          List.find?_cons_of_pos _ (by simpa using h')]
      · unfold mapGet
        rw [List.find?_cons_of_neg _ (by simpa using h'),
          List.find?_cons_of_neg _ (by simpa using h')]
        exact ih

theorem keys_delete_not_mem (reg : Registry) (k : String) :
    k ∉ getActiveChannels (mapDelete reg k) := by
  intro hmem
  simp only [getActiveChannels, mapDelete, List.mem_map, List.mem_filter] at hmem
  obtain ⟨e, ⟨_, hpred⟩, hk⟩ := hmem
  rw [hk] at hpred
  simp at hpred

theorem mapGet_nil (k : String) : mapGet [] k = none := rfl

/-- C4: after `removeSSEClient` removes the last handle registered under a
channel, the channel's entry is deleted from the registry, so
`getActiveChannels()` no longer contains that channel name. -/
theorem removeSSEClient_last_handle_deletes_channel
    (opts : BaseServiceOptions) (reg : Registry) (channel : String)
    (l : List Handle) (cid : Nat) (i : Nat)
    (hsse : opts.enableSSE = true)
    (hget : mapGet reg channel = some l)
    (hidx : idxOf? l cid = some i)
    (herase : l.eraseIdx i = []) :
    channel ∉ getActiveChannels (removeSSEClient opts reg channel cid) := by
  unfold removeSSEClient
  rw [hsse, hget]
  simp only [Option.getD_some, Bool.not_true, Bool.false_eq_true, if_false]
  rw [hidx]
  simp only [herase, List.isEmpty_nil, if_true]
  exact keys_delete_not_mem reg channel

/-- Witness for C4 at a concrete registry with one channel holding one handle. -/
theorem removeSSEClient_last_handle_deletes_channel_witness :
    ("c" : String) ∉ getActiveChannels (removeSSEClient { enableSSE := true }
      [("c", [{ hid := 1 }])] "c" 1) :=
  removeSSEClient_last_handle_deletes_channel { enableSSE := true }
    [("c", [{ hid := 1 }])] "c" [{ hid := 1 }] 1 0 rfl rfl rfl rfl

/-! ### List-level description of repeated `removeSSEClient` calls -/

/-- Effect of one `removeSSEClient` call on a channel's handle array:
`indexOf` then `splice`. -/
def removeOne (l : List Handle) (cid : Nat) : List Handle :=
  match idxOf? l cid with
  | none => l
  | some i => l.eraseIdx i

/-- Effect of removing a list of client identities one after the other. -/
def removeIds (l : List Handle) (ids : List Nat) : List Handle :=
  ids.foldl removeOne l

theorem removeIds_cons (l : List Handle) (c : Nat) (ids : List Nat) :
    removeIds l (c :: ids) = removeIds (removeOne l c) ids := rfl

theorem removeOne_nil (cid : Nat) : removeOne [] cid = [] := rfl

theorem removeIds_nil_left (ids : List Nat) : removeIds [] ids = [] := by
  induction ids with
  | nil => rfl
  | cons c ids ih => rw [removeIds_cons, removeOne_nil]; exact ih

theorem idxOf?_cons_self (h : Handle) (t : List Handle) :
    idxOf? (h :: t) h.hid = some 0 := by
  simp [idxOf?, List.findIdx?_cons]

theorem idxOf?_cons_ne (h : Handle) (t : List Handle) (cid : Nat)
    (hne : h.hid ≠ cid) :
    idxOf? (h :: t) cid = (idxOf? t cid).map (· + 1) := by
  simp [idxOf?, List.findIdx?_cons, hne, List.findIdx?_succ]

theorem removeOne_cons_self (h : Handle) (t : List Handle) :
    removeOne (h :: t) h.hid = t := by
  unfold removeOne
  rw [idxOf?_cons_self]
  rfl

theorem removeOne_cons_ne (h : Handle) (t : List Handle) (cid : Nat)
    (hne : h.hid ≠ cid) :
    removeOne (h :: t) cid = h :: removeOne t cid := by
  unfold removeOne
  rw [idxOf?_cons_ne h t cid hne]
  cases hi : idxOf? t cid with
  | none => rfl
  | some i => simp [List.eraseIdx_cons_succ]

theorem removeIds_cons_notMem (h : Handle) (ids : List Nat)
    (hni : h.hid ∉ ids) :
    ∀ t : List Handle, removeIds (h :: t) ids = h :: removeIds t ids := by
  induction ids with
  | nil => intro t; rfl
  | cons c ids ih =>
    intro t
    have hne : h.hid ≠ c := fun e => hni (e ▸ List.mem_cons_self c ids)
    rw [removeIds_cons, removeOne_cons_ne h t c hne, removeIds_cons]
    exact ih (fun m => hni (List.mem_cons_of_mem c m)) _

/-- Removing, by identity, exactly the handles matching `p` (in their order of
occurrence) from a duplicate-free handle array leaves the handles not
matching `p`. This is the self-healing step of the broadcast loop. -/
theorem removeIds_filter (p : Handle → Bool) :
    ∀ l : List Handle, (l.map Handle.hid).Nodup →
      removeIds l ((l.filter p).map Handle.hid) = l.filter (fun h => !p h) := by
  intro l
  induction l with
  | nil => intro _; rfl
  | cons h t ih =>
    intro hnd
    rw [List.map_cons, List.nodup_cons] at hnd
    by_cases hp : p h
    · have hl : (List.filter p (h :: t)).map Handle.hid
          = h.hid :: (t.filter p).map Handle.hid := by
        simp [List.filter_cons, hp]
      rw [hl, removeIds_cons, removeOne_cons_self, ih hnd.2]
      simp [List.filter_cons, hp]
    · have hl : (List.filter p (h :: t)).map Handle.hid
          = (t.filter p).map Handle.hid := by
        simp [List.filter_cons, hp]
      have hni : h.hid ∉ (t.filter p).map Handle.hid := fun m => by
        obtain ⟨x, hx, he⟩ := List.mem_map.mp m
        exact hnd.1 (List.mem_map.mpr ⟨x, (List.mem_filter.mp hx).1, he⟩)
      rw [hl, removeIds_cons_notMem h _ hni, ih hnd.2]
      simp [List.filter_cons, hp]

/-! ### Registry-level behaviour of `removeSSEClient` -/

theorem mapGet_delete_self (reg : Registry) (k : String) :
    mapGet (mapDelete reg k) k = none := by
  have hf : List.find? (fun e => decide (e.1 = k)) (mapDelete reg k) = none := by
    rw [List.find?_eq_none]
    intro x hx
    have := (List.mem_filter.mp hx).2
    simpa using this
  simp [mapGet, hf]

theorem removeSSEClient_get_none (opts : BaseServiceOptions) (reg : Registry)
    (ch : String) (cid : Nat) (hget : mapGet reg ch = none) :
    removeSSEClient opts reg ch cid = reg := by
  unfold removeSSEClient
  cases hsse : opts.enableSSE with
  | false => simp
  | true => simp [hget, idxOf?]

/-- Unfolding of one `removeSSEClient` call on a channel that exists. -/
theorem removeSSEClient_eq (opts : BaseServiceOptions)
    (hsse : opts.enableSSE = true) (reg : Registry) (ch : String) (cid : Nat)
    (l : List Handle) (hget : mapGet reg ch = some l) :
    removeSSEClient opts reg ch cid =
      (match idxOf? l cid with
       | none => reg
       | some i =>
         if (l.eraseIdx i).isEmpty then mapDelete reg ch
         else mapSet reg ch (l.eraseIdx i)) := by
  unfold removeSSEClient
  rw [hsse, hget]
  rfl

theorem removeSSEClient_get_ne (opts : BaseServiceOptions) (reg : Registry)
    (ch ch' : String) (cid : Nat) (hne : ch' ≠ ch) :
    mapGet (removeSSEClient opts reg ch cid) ch' = mapGet reg ch' := by
  cases hsse : opts.enableSSE with
  | false => unfold removeSSEClient; rw [hsse]; rfl
  | true =>
    cases hget : mapGet reg ch with
    | none => rw [removeSSEClient_get_none opts reg ch cid hget]
    | some l =>
      rw [removeSSEClient_eq opts hsse reg ch cid l hget]
      cases hidx : idxOf? l cid with
      | none => rfl
      | some i =>
        by_cases hemp : (l.eraseIdx i).isEmpty
        · simp only [hemp, if_true]
          exact mapGet_delete_ne reg ch ch' hne
        · simp only [hemp, if_false]
          exact mapGet_set_ne reg ch ch' _ hne

theorem foldRemove_get_none (opts : BaseServiceOptions) (ch : String) :
    ∀ (ids : List Nat) (reg : Registry), mapGet reg ch = none →
      ids.foldl (fun r cid => removeSSEClient opts r ch cid) reg = reg := by
  intro ids
  induction ids with
  | nil => intro reg _; rfl
  | cons c ids ih =>
    intro reg hget
    show List.foldl _ (removeSSEClient opts reg ch c) ids = reg
    rw [removeSSEClient_get_none opts reg ch c hget]
    exact ih reg hget

theorem foldRemove_get_ne (opts : BaseServiceOptions) (ch ch' : String)
    (hne : ch' ≠ ch) :
    ∀ (ids : List Nat) (reg : Registry),
      mapGet (ids.foldl (fun r cid => removeSSEClient opts r ch cid) reg) ch' =
        mapGet reg ch' := by
  intro ids
  induction ids with
  | nil => intro reg; rfl
  | cons c ids ih =>
    intro reg
    show mapGet (List.foldl _ (removeSSEClient opts reg ch c) ids) ch' = _
    rw [ih (removeSSEClient opts reg ch c)]
    exact removeSSEClient_get_ne opts reg ch ch' c hne

/-- The channel's array after the dead-client cleanup loop of a broadcast:
successively removing the collected identities behaves as `removeIds`, with
the channel entry deleted exactly when the array empties. -/
theorem foldRemove_get_some (opts : BaseServiceOptions)
    (hsse : opts.enableSSE = true) (ch : String) :
    ∀ (ids : List Nat) (reg : Registry) (l : List Handle),
      mapGet reg ch = some l → l ≠ [] →
      mapGet (ids.foldl (fun r cid => removeSSEClient opts r ch cid) reg) ch =
        (if removeIds l ids = [] then none else some (removeIds l ids)) := by
  intro ids
  induction ids with
  | nil =>
    intro reg l hget hne
    simpa [removeIds, hne] using hget
  | cons c ids ih =>
    intro reg l hget hne
    show mapGet (List.foldl _ (removeSSEClient opts reg ch c) ids) ch = _
    rw [removeIds_cons]
    cases hidx : idxOf? l c with
    | none =>
      have hro : removeOne l c = l := by unfold removeOne; rw [hidx]
      have hstep : removeSSEClient opts reg ch c = reg := by
        rw [removeSSEClient_eq opts hsse reg ch c l hget, hidx]
      rw [hstep, hro]
      exact ih reg l hget hne
    | some i =>
      have hro : removeOne l c = l.eraseIdx i := by unfold removeOne; rw [hidx]
      by_cases hemp : l.eraseIdx i = []
      · have hstep : removeSSEClient opts reg ch c = mapDelete reg ch := by
          rw [removeSSEClient_eq opts hsse reg ch c l hget, hidx]
          simp [hemp]
        rw [hstep, hro, hemp, removeIds_nil_left]
        have hnone : mapGet (mapDelete reg ch) ch = none := mapGet_delete_self reg ch
        rw [foldRemove_get_none opts ch ids _ hnone, hnone]
        simp
      · have hstep : removeSSEClient opts reg ch c =
            mapSet reg ch (l.eraseIdx i) := by
          rw [removeSSEClient_eq opts hsse reg ch c l hget, hidx]
          simp [List.isEmpty_iff, hemp]
        rw [hstep, hro]
        exact ih _ _ (mapGet_set_self reg ch _) hemp

/-! ### Behaviour of one broadcast -/

/-- A handle the broadcast loop classifies for removal: dead before the write
(`destroyed || writableEnded`) or its write throws. -/
def broadcastDead (h : Handle) : Bool :=
  h.isDead || !h.writeOk

theorem broadcastStep_snd (e : String) (d : JsVal) (h : Handle) :
    (broadcastStep e d h).2 = broadcastDead h := by
  unfold broadcastStep broadcastDead
  by_cases h1 : h.isDead <;> by_cases h2 : h.writeOk <;> simp [h1, h2]

theorem broadcastStep_fst_hid (e : String) (d : JsVal) (h : Handle) :
    ((broadcastStep e d h).1).hid = h.hid := by
  unfold broadcastStep writeFrame
  by_cases h1 : h.isDead <;> by_cases h2 : h.writeOk <;> simp [h1, h2]

theorem broadcastStep_fst_dead (e : String) (d : JsVal) (h : Handle)
    (hd : broadcastDead h = true) : (broadcastStep e d h).1 = h := by
  unfold broadcastDead at hd
  unfold broadcastStep
  by_cases h1 : h.isDead <;> by_cases h2 : h.writeOk <;>
    simp [h1, h2] at hd ⊢

theorem broadcastStep_fst_live (e : String) (d : JsVal) (h : Handle)
    (hd : broadcastDead h = false) :
    (broadcastStep e d h).1 = writeFrame e d h := by
  unfold broadcastDead at hd
  unfold broadcastStep
  by_cases h1 : h.isDead <;> by_cases h2 : h.writeOk <;>
    simp [h1, h2] at hd ⊢

theorem broadcastDead_step (e : String) (d : JsVal) (h : Handle) :
    broadcastDead (broadcastStep e d h).1 = broadcastDead h := by
  unfold broadcastStep writeFrame broadcastDead Handle.isDead
  by_cases h1 : h.destroyed <;> by_cases h2 : h.writableEnded <;>
    by_cases h3 : h.writeOk <;> simp [h1, h2, h3]

/-- Unfolding of `broadcastToChannel` on a channel that exists. -/
theorem broadcastToChannel_eq (opts : BaseServiceOptions)
    (hsse : opts.enableSSE = true) (reg : Registry) (ch e : String) (d : JsVal)
    (now : String) (clients : List Handle)
    (hget : mapGet reg ch = some clients) :
    broadcastToChannel opts reg ch e d now =
      ((((clients.map (broadcastStep e d)).filter (·.2)).map (·.1.hid)).foldl
        (fun r cid => removeSSEClient opts r ch cid)
        (mapSet reg ch ((clients.map (broadcastStep e d)).map (·.1)))) := by
  unfold broadcastToChannel
  rw [hsse, hget]
  rfl

/-- Other channels are untouched by a broadcast. -/
theorem broadcastToChannel_get_ne (opts : BaseServiceOptions) (reg : Registry)
    (ch ch' e : String) (d : JsVal) (now : String) (hne : ch' ≠ ch) :
    mapGet (broadcastToChannel opts reg ch e d now) ch' = mapGet reg ch' := by
  cases hsse : opts.enableSSE with
  | false => unfold broadcastToChannel; rw [hsse]; rfl
  | true =>
    cases hget : mapGet reg ch with
    | none => unfold broadcastToChannel; rw [hsse, hget]; rfl
    | some clients =>
      rw [broadcastToChannel_eq opts hsse reg ch e d now clients hget]
      rw [foldRemove_get_ne opts ch ch' hne]
      exact mapGet_set_ne reg ch ch' _ hne

/-- The channel's array after one broadcast: the dead handles (and the ones
whose write threw) are gone, every surviving handle has been written exactly
one frame, and the channel entry itself is deleted when nothing survives out
of a non-empty array. -/
theorem broadcastToChannel_get_self (opts : BaseServiceOptions)
    (hsse : opts.enableSSE = true) (reg : Registry) (ch e : String) (d : JsVal)
    (now : String) (clients : List Handle)
    (hget : mapGet reg ch = some clients)
    (hnodup : (clients.map Handle.hid).Nodup) :
    mapGet (broadcastToChannel opts reg ch e d now) ch =
      (if clients ≠ [] ∧
          (clients.filter (fun h => !broadcastDead h)).map (writeFrame e d) = []
       then none
       else some ((clients.filter (fun h => !broadcastDead h)).map
         (writeFrame e d))) := by
  rw [broadcastToChannel_eq opts hsse reg ch e d now clients hget]
  have hstep1 : ((clients.map (broadcastStep e d)).map (·.1))
      = clients.map (fun h => (broadcastStep e d h).1) := by
    rw [List.map_map]
    rfl
  have hhid : (clients.map (fun h => (broadcastStep e d h).1)).map Handle.hid
      = clients.map Handle.hid := by
    rw [List.map_map]
    exact List.map_congr_left (fun h _ => broadcastStep_fst_hid e d h)
  have hdeadL : ((clients.map (broadcastStep e d)).filter (·.2)).map (·.1.hid)
      = (clients.filter broadcastDead).map Handle.hid := by
    rw [List.filter_map, List.map_map]
    have hp : ((fun x : Handle × Bool => x.2) ∘ broadcastStep e d)
        = broadcastDead := funext (fun h => broadcastStep_snd e d h)
    rw [hp]
    exact List.map_congr_left (fun h _ => broadcastStep_fst_hid e d h)
  have hdeadR :
      ((clients.map (fun h => (broadcastStep e d h).1)).filter
        broadcastDead).map Handle.hid
      = (clients.filter broadcastDead).map Handle.hid := by
    rw [List.filter_map, List.map_map]
    have hp : (broadcastDead ∘ fun h => (broadcastStep e d h).1)
        = broadcastDead := funext (fun h => broadcastDead_step e d h)
    rw [hp]
    exact List.map_congr_left (fun h _ => broadcastStep_fst_hid e d h)
  have hsurv : (clients.map (fun h => (broadcastStep e d h).1)).filter
        (fun h => !broadcastDead h)
      = (clients.filter (fun h => !broadcastDead h)).map (writeFrame e d) := by
    rw [List.filter_map]
    have hp : ((fun h => !broadcastDead h) ∘ fun h => (broadcastStep e d h).1)
        = fun h => !broadcastDead h := by
      funext h
      show (!broadcastDead (broadcastStep e d h).1) = _
      rw [broadcastDead_step]
    rw [hp]
    exact List.map_congr_left (fun h hm =>
      broadcastStep_fst_live e d h (by simpa using (List.mem_filter.mp hm).2))
  rw [hstep1, hdeadL, ← hdeadR]
  by_cases hnil : clients = []
  · subst hnil
    simp [mapGet_set_self]
  · have hne' : clients.map (fun h => (broadcastStep e d h).1) ≠ [] := by
      simpa using hnil
    rw [foldRemove_get_some opts hsse ch _ _ _ (mapGet_set_self reg ch _) hne']
    rw [removeIds_filter broadcastDead _ (by rw [hhid]; exact hnodup), hsurv]
    simp [hnil]

/-- C1: broadcasting to a channel whose registered handles mix live and dead
ones (dead = `destroyed || writableEnded`; live handles' writes succeed)
writes the event only to the live handles, removes every dead handle from the
registry by the time the call returns (deleting the channel when nothing is
left), and when all N handles are live every one of them receives exactly one
framed event and the channel's handle count is unchanged. -/
theorem broadcastToChannel_mixed_live_dead (opts : BaseServiceOptions)
    (reg : Registry) (ch e : String) (d : JsVal) (now : String)
    (hs : List Handle)
    (hsse : opts.enableSSE = true)
    (hget : mapGet reg ch = some hs)
    (hnodup : (hs.map Handle.hid).Nodup)
    (hlw : ∀ h ∈ hs, h.isDead = false → h.writeOk = true) :
    (∀ h ∈ hs, h.isDead = true →
      h.hid ∉ ((mapGet (broadcastToChannel opts reg ch e d now) ch).getD
        []).map Handle.hid) ∧
    (hs.filter (fun h => !h.isDead) ≠ [] →
      mapGet (broadcastToChannel opts reg ch e d now) ch =
        some ((hs.filter (fun h => !h.isDead)).map (writeFrame e d))) ∧
    (hs ≠ [] → hs.filter (fun h => !h.isDead) = [] →
      mapGet (broadcastToChannel opts reg ch e d now) ch = none) ∧
    ((∀ h ∈ hs, h.isDead = false) →
      mapGet (broadcastToChannel opts reg ch e d now) ch =
          some (hs.map (writeFrame e d)) ∧
        getChannelClientCount (broadcastToChannel opts reg ch e d now) ch =
          hs.length) := by
  have key := broadcastToChannel_get_self opts hsse reg ch e d now hs hget hnodup
  have hfilt : hs.filter (fun h => !broadcastDead h)
      = hs.filter (fun h => !h.isDead) := by
    apply List.filter_congr
    intro h hm
    unfold broadcastDead
    cases hd : h.isDead with
    | false => simp [hlw h hm hd]
    | true => simp
  rw [hfilt] at key
  refine ⟨?_, ?_, ?_, ?_⟩
  · intro h hm hdead hmem
    by_cases hc : hs ≠ [] ∧ (hs.filter (fun h => !h.isDead)).map
        (writeFrame e d) = []
    · rw [key, if_pos hc] at hmem
      simp at hmem
    · rw [key, if_neg hc] at hmem
      simp only [Option.getD_some, List.map_map, List.mem_map] at hmem
      obtain ⟨x, hx, hhid⟩ := hmem
      have hxmem := (List.mem_filter.mp hx).1
      have hxlive := (List.mem_filter.mp hx).2
      have hxh : x = h := List.inj_on_of_nodup_map hnodup hxmem hm hhid
      rw [hxh, hdead] at hxlive
      simp at hxlive
  · intro hlive
    have hc : ¬(hs ≠ [] ∧ (hs.filter (fun h => !h.isDead)).map
        (writeFrame e d) = []) := by
      rintro ⟨-, hmap⟩
      exact hlive (List.map_eq_nil_iff.mp hmap)
    rw [key, if_neg hc]
  · intro hne hfnil
    have hc : hs ≠ [] ∧ (hs.filter (fun h => !h.isDead)).map
        (writeFrame e d) = [] := ⟨hne, by rw [hfnil]; rfl⟩
    rw [key, if_pos hc]
  · intro hall
    have hfs : hs.filter (fun h => !h.isDead) = hs :=
      List.filter_eq_self.mpr (fun h hm => by simp [hall h hm])
    rw [hfs] at key
    by_cases hne : hs = []
    · subst hne
      constructor
      · rw [key]; simp
      · unfold getChannelClientCount
        rw [key]; simp
    · have hc : ¬(hs ≠ [] ∧ hs.map (writeFrame e d) = []) := by
        rintro ⟨h1, h2⟩
        exact h1 (List.map_eq_nil_iff.mp h2)
      constructor
      · rw [key, if_neg hc]
      · unfold getChannelClientCount
        rw [key, if_neg hc]
        simp

/-- Witness for C1: channel `"c"` with live handles 1 and 3 and dead handle 2:
after the broadcast only the live handles remain, each written the frame. -/
theorem broadcastToChannel_mixed_live_dead_witness :
    mapGet (broadcastToChannel { enableSSE := true }
        [("c", [⟨1, false, false, true, ""⟩, ⟨2, true, false, true, ""⟩,
          ⟨3, false, false, true, ""⟩])] "c" "ev" JsVal.null "T") "c" =
      some ([⟨1, false, false, true, ""⟩,
        ⟨3, false, false, true, ""⟩].map (writeFrame "ev" JsVal.null)) :=
  (broadcastToChannel_mixed_live_dead { enableSSE := true }
    [("c", [⟨1, false, false, true, ""⟩, ⟨2, true, false, true, ""⟩,
      ⟨3, false, false, true, ""⟩])] "c" "ev" JsVal.null "T"
    [⟨1, false, false, true, ""⟩, ⟨2, true, false, true, ""⟩,
      ⟨3, false, false, true, ""⟩]
    rfl rfl (by decide) (by decide)).2.1 (by decide)

/-- C2: a broadcast of event type `e` with payload `d` writes to each
subscribed live handle exactly the two-line SSE frame
`event: <e>\n` `data: <JSON(d)>\n\n`; in particular the frame for
`eventType = "created"`, `payload = (id:5)` is
`event: created\ndata: (\"id\":5)\n\n` (braces around `\"id\":5`). -/
theorem broadcastToChannel_frame_delivery (opts : BaseServiceOptions)
    (reg : Registry) (ch e : String) (d : JsVal) (now : String)
    (hs : List Handle) (h : Handle)
    (hsse : opts.enableSSE = true)
    (hget : mapGet reg ch = some hs)
    (hnodup : (hs.map Handle.hid).Nodup)
    (hmem : h ∈ hs)
    (hlive : h.isDead = false)
    (hwok : h.writeOk = true) :
    (∃ l h', mapGet (broadcastToChannel opts reg ch e d now) ch = some l ∧
      h' ∈ l ∧ h'.hid = h.hid ∧
      h'.written = h.written ++ "event: " ++ e ++ "\n" ++ "data: " ++
        d.stringify ++ "\n\n") ∧
    sseFrame "created" (JsVal.obj [("id", JsVal.num 5)]) =
      "event: created\ndata: \x7b\"id\":5\x7d\n\n" := by
  constructor
  · have key := broadcastToChannel_get_self opts hsse reg ch e d now hs hget
      hnodup
    have hdead : broadcastDead h = false := by
      unfold broadcastDead
      rw [hlive, hwok]
      rfl
    have hmemf : h ∈ hs.filter (fun x => !broadcastDead x) :=
      List.mem_filter.mpr ⟨hmem, by rw [hdead]; rfl⟩
    have hsurv : writeFrame e d h ∈
        (hs.filter (fun x => !broadcastDead x)).map (writeFrame e d) :=
      List.mem_map.mpr ⟨h, hmemf, rfl⟩
    have hc : ¬(hs ≠ [] ∧
        (hs.filter (fun x => !broadcastDead x)).map (writeFrame e d) = []) := by
      rintro ⟨-, hmap⟩
      rw [hmap] at hsurv
      exact List.not_mem_nil _ hsurv
    refine ⟨_, writeFrame e d h, by rw [key, if_neg hc], hsurv, rfl, ?_⟩
    show h.written ++ sseFrame e d = _
    unfold sseFrame
    simp [String.append_assoc]
  · rfl

/-- Witness for C2: handle 1 subscribed to `"orders"`, broadcasting
`created` with payload `(id:5)`. -/
theorem broadcastToChannel_frame_delivery_witness :
    (∃ l h', mapGet (broadcastToChannel { enableSSE := true }
        [("orders", [⟨1, false, false, true, ""⟩])] "orders" "created"
        (JsVal.obj [("id", JsVal.num 5)]) "T") "orders" = some l ∧
      h' ∈ l ∧ h'.hid = 1 ∧
      h'.written = "" ++ "event: " ++ "created" ++ "\n" ++ "data: " ++
        (JsVal.obj [("id", JsVal.num 5)]).stringify ++ "\n\n") ∧
    sseFrame "created" (JsVal.obj [("id", JsVal.num 5)]) =
      "event: created\ndata: \x7b\"id\":5\x7d\n\n" :=
  broadcastToChannel_frame_delivery { enableSSE := true }
    [("orders", [⟨1, false, false, true, ""⟩])] "orders" "created"
    (JsVal.obj [("id", JsVal.num 5)]) "T"
    [⟨1, false, false, true, ""⟩] ⟨1, false, false, true, ""⟩
    rfl rfl (by decide) (by decide) rfl rfl

/-! ### Pagination -/

/-- `PaginationOptions` as produced by `normalizePagination`. -/
structure PaginationOptions where
  page : Int
  limit : Int
  offset : Int
deriving Repr, DecidableEq

/-- `PaginationResult` as produced by `buildPaginationResult`. -/
structure PaginationResult (α : Type) where
  data : List α
  total : Int
  page : Int
  limit : Int
  totalPages : Int
  hasNext : Bool
  hasPrevious : Bool
deriving Repr

/-- JS `x || d` on a possibly-absent number: the default when the operand is
`undefined` or falsy (`0`). -/
def jsOrDefault (x : Option Int) (d : Int) : Int :=
  match x with
  | none => d
  | some v => if v = 0 then d else v

/-- `normalizePagination`: `page = Math.max(1, pagination?.page || 1)`,
`limit = Math.min(maxPageSize, Math.max(1, pagination?.limit ||
defaultPageSize))`, `offset = (page - 1) * limit`. -/
def normalizePagination (opts : BaseServiceOptions)
    (page? limit? : Option Int) : PaginationOptions :=
  let page := max 1 (jsOrDefault page? 1)
  let limit := min opts.maxPageSize
    (max 1 (jsOrDefault limit? opts.defaultPageSize))
  { page := page, limit := limit, offset := (page - 1) * limit }

/-- `Math.ceil(a / b)` for a positive divisor `b`: the negated floor division
of the negation. -/
def jsMathCeilDiv (a b : Int) : Int := -((-a) / b)

/-- `buildPaginationResult`: `totalPages = Math.ceil(total / limit)`,
`hasNext = page < totalPages`, `hasPrevious = page > 1`. -/
def buildPaginationResult {α : Type} (data : List α) (total : Int)
    (pagination : PaginationOptions) : PaginationResult α :=
  let totalPages := jsMathCeilDiv total pagination.limit
  { data := data
    total := total
    page := pagination.page
    limit := pagination.limit
    totalPages := totalPages
    hasNext := decide (pagination.page < totalPages)
    hasPrevious := decide (pagination.page > 1) }

/-- For a positive divisor, `jsMathCeilDiv` is the exact ceiling of the
rational quotient: the unique `q` with `(q-1)*b < a ≤ q*b`. -/
theorem jsMathCeilDiv_bounds (a b : Int) (hb : 0 < b) :
    (jsMathCeilDiv a b - 1) * b < a ∧ a ≤ jsMathCeilDiv a b * b := by
  unfold jsMathCeilDiv
  constructor
  · have h := Int.lt_ediv_add_one_mul_self (-a) hb
    nlinarith
  · have h := Int.ediv_mul_le (-a) (by omega : b ≠ 0)
    nlinarith

/-- C3: for every pagination request, with a valid service configuration
(`maxPageSize ≥ 1`), the effective limit lies in `[1, maxPageSize]` (a caller
limit above `maxPageSize` is clamped to `maxPageSize`), the effective page is
at least 1 so `offset = (page-1)*limit ≥ 0`, and `buildPaginationResult`
returns `totalPages = ceil(total / effectiveLimit)` (characterized by
`(totalPages - 1) * limit < total ≤ totalPages * limit`). -/
theorem normalizePagination_buildResult_spec {α : Type}
    (opts : BaseServiceOptions) (page? limit? : Option Int) (data : List α)
    (total : Int) (hmax : 1 ≤ opts.maxPageSize) :
    1 ≤ (normalizePagination opts page? limit?).limit ∧
    (normalizePagination opts page? limit?).limit ≤ opts.maxPageSize ∧
    (∀ v, limit? = some v → opts.maxPageSize < v →
      (normalizePagination opts page? limit?).limit = opts.maxPageSize) ∧
    1 ≤ (normalizePagination opts page? limit?).page ∧
    (normalizePagination opts page? limit?).offset =
      ((normalizePagination opts page? limit?).page - 1) *
        (normalizePagination opts page? limit?).limit ∧
    0 ≤ (normalizePagination opts page? limit?).offset ∧
    ((buildPaginationResult data total
        (normalizePagination opts page? limit?)).totalPages - 1) *
      (normalizePagination opts page? limit?).limit < total ∧
    total ≤ (buildPaginationResult data total
        (normalizePagination opts page? limit?)).totalPages *
      (normalizePagination opts page? limit?).limit := by
  have hlim1 : 1 ≤ (normalizePagination opts page? limit?).limit := by
    unfold normalizePagination
    simp only []
    omega
  have hpage1 : 1 ≤ (normalizePagination opts page? limit?).page := by
    unfold normalizePagination
    simp only []
    omega
  refine ⟨hlim1, ?_, ?_, hpage1, rfl, ?_, ?_, ?_⟩
  · unfold normalizePagination
    simp only []
    omega
  · intro v hv hgt
    unfold normalizePagination
    simp only [hv]
    unfold jsOrDefault
    have hv0 : ¬v = 0 := by omega
    simp only [hv0, if_false]
    omega
  · exact mul_nonneg (by omega) (by omega)
  · exact (jsMathCeilDiv_bounds total _ (by omega)).1
  · exact (jsMathCeilDiv_bounds total _ (by omega)).2

/-- Witness for C3 with the default options, `page = 2`, a caller limit of
`2500` (above `maxPageSize = 1000`) and `total = 17`. -/
theorem normalizePagination_buildResult_spec_witness :
    1 ≤ (normalizePagination {} (some 2) (some 2500)).limit ∧
    (normalizePagination {} (some 2) (some 2500)).limit ≤
      BaseServiceOptions.maxPageSize {} ∧
    (∀ v, (some 2500 : Option Int) = some v →
      BaseServiceOptions.maxPageSize {} < v →
      (normalizePagination {} (some 2) (some 2500)).limit =
        BaseServiceOptions.maxPageSize {}) ∧
    1 ≤ (normalizePagination {} (some 2) (some 2500)).page ∧
    (normalizePagination {} (some 2) (some 2500)).offset =
      ((normalizePagination {} (some 2) (some 2500)).page - 1) *
        (normalizePagination {} (some 2) (some 2500)).limit ∧
    0 ≤ (normalizePagination {} (some 2) (some 2500)).offset ∧
    ((buildPaginationResult ([] : List Handle) 17
        (normalizePagination {} (some 2) (some 2500))).totalPages - 1) *
      (normalizePagination {} (some 2) (some 2500)).limit < 17 ∧
    17 ≤ (buildPaginationResult ([] : List Handle) 17
        (normalizePagination {} (some 2) (some 2500))).totalPages *
      (normalizePagination {} (some 2) (some 2500)).limit :=
  normalizePagination_buildResult_spec {} (some 2) (some 2500) [] 17
    (by decide)

/-- C10: a falsy caller limit (`0` or absent) falls back to
`defaultPageSize`, any strictly negative caller limit is clamped to `1`, a
caller page of `0` falls back to `1`, and hence (when `defaultPageSize ≠ 1`)
`limit = 0` and `limit = -1` produce different effective limits. Requires a
valid configuration `1 ≤ defaultPageSize ≤ maxPageSize`. -/
theorem normalizePagination_falsy_vs_negative (opts : BaseServiceOptions)
    (page? limit? : Option Int)
    (hd1 : 1 ≤ opts.defaultPageSize)
    (hdm : opts.defaultPageSize ≤ opts.maxPageSize) :
    (normalizePagination opts page? (some 0)).limit = opts.defaultPageSize ∧
    (normalizePagination opts page? none).limit = opts.defaultPageSize ∧
    (∀ v : Int, v < 0 → (normalizePagination opts page? (some v)).limit = 1) ∧
    (normalizePagination opts (some 0) limit?).page = 1 ∧
    (opts.defaultPageSize ≠ 1 →
      (normalizePagination opts page? (some 0)).limit ≠
        (normalizePagination opts page? (some (-1))).limit) := by
  have h0 : (normalizePagination opts page? (some 0)).limit =
      opts.defaultPageSize := by
    simp [normalizePagination, jsOrDefault]
    omega
  have hneg : ∀ v : Int, v < 0 →
      (normalizePagination opts page? (some v)).limit = 1 := by
    intro v hv
    have hv0 : ¬v = 0 := by omega
    simp [normalizePagination, jsOrDefault, hv0]
    omega
  refine ⟨h0, ?_, hneg, ?_, ?_⟩
  · simp [normalizePagination, jsOrDefault]
    omega
  · simp [normalizePagination, jsOrDefault]
  · intro hne
    rw [h0, hneg (-1) (by omega)]
    exact hne

/-- Witness for C10 with the default options (`defaultPageSize = 10`,
`maxPageSize = 1000`). -/
theorem normalizePagination_falsy_vs_negative_witness :
    (normalizePagination {} none (some 0)).limit =
      BaseServiceOptions.defaultPageSize {} ∧
    (normalizePagination {} none none).limit =
      BaseServiceOptions.defaultPageSize {} ∧
    (∀ v : Int, v < 0 → (normalizePagination {} none (some v)).limit = 1) ∧
    (normalizePagination {} (some 0) none).page = 1 ∧
    (BaseServiceOptions.defaultPageSize {} ≠ 1 →
      (normalizePagination {} none (some 0)).limit ≠
        (normalizePagination {} none (some (-1))).limit) :=
  normalizePagination_falsy_vs_negative {} none none (by decide) (by decide)

/-! ### Error handling at the Data Service boundary -/

/-- The two `AppError` kinds `handleDatabaseError` raises: `NotFoundError`
and `DatabaseError` (whose `details` carry the original message/code, when
attached). -/
inductive AppError where
  | notFound (message : String)
  | database (message : String) (details : Option (String × Option String))
deriving Repr, DecidableEq

/-- The message of an `AppError` (`error.message` in JS). -/
def AppError.message : AppError → String
  | .notFound m => m
  | .database m _ => m

/-- A raw store-driver error as `handleDatabaseError` inspects it: its
message and its optional Prisma `code`. -/
structure DbError where
  message : String
  code : Option String
deriving Repr, DecidableEq

/-- JS `String.prototype.toLowerCase` (character-wise). -/
def toLowerStr (s : String) : String := s.map Char.toLower

/-- The `operationMessages` table of `handleDatabaseError`. -/
def operationMessages (modelName : String) : List (String × String) :=
  [("findMany", "Failed to retrieve " ++ toLowerStr modelName ++ " list"),
   ("findById", "Failed to retrieve " ++ toLowerStr modelName),
   ("findOne", "Failed to retrieve " ++ toLowerStr modelName),
   ("create", "Failed to create " ++ toLowerStr modelName),
   ("updateById", "Failed to update " ++ toLowerStr modelName),
   ("deleteById", "Failed to delete " ++ toLowerStr modelName),
   ("softDelete", "Failed to delete " ++ toLowerStr modelName),
   ("transaction", "Database transaction failed")]

/-- `handleDatabaseError(error, operation)`: a `P2025` code maps to
`NotFoundError`; anything else maps to `DatabaseError` with the generic
per-operation message, attaching the original message/code only when
`process.env.NODE_ENV === 'development'` (`env` parameter). -/
def handleDatabaseError (modelName env : String) (error : DbError)
    (operation : String) : AppError :=
  let safeMessage :=
    (((operationMessages modelName).find? (fun e => e.1 = operation)).map
      (·.2)).getD "Database operation failed"
  if error.code = some "P2025" then
    AppError.notFound (modelName ++ " not found")
  else
    AppError.database safeMessage
      (if env = "development" then some (error.message, error.code) else none)

/-- C7: a store failure carrying the Prisma "record to mutate was not found"
code `P2025` is raised as `NotFound`; every other store failure is raised as
`Database` with a per-operation message that does not depend on the
underlying error, and the underlying message/code is attached only in
development — so callers never receive the raw store-driver error. -/
theorem handleDatabaseError_spec (modelName env : String) (e : DbError)
    (op : String) :
    (e.code = some "P2025" →
      handleDatabaseError modelName env e op =
        AppError.notFound (modelName ++ " not found")) ∧
    (e.code ≠ some "P2025" →
      ∃ msg details, handleDatabaseError modelName env e op =
          AppError.database msg details ∧
        (∀ e' : DbError, e'.code ≠ some "P2025" → ∃ details',
          handleDatabaseError modelName env e' op =
            AppError.database msg details') ∧
        (env ≠ "development" → details = none) ∧
        (env = "development" → details = some (e.message, e.code))) := by
  constructor
  · intro hc
    simp only [handleDatabaseError]
    rw [if_pos hc]
  · intro hc
    refine ⟨(((operationMessages modelName).find? (fun x => x.1 = op)).map
        (·.2)).getD "Database operation failed",
      if env = "development" then some (e.message, e.code) else none,
      ?_, ?_, ?_, ?_⟩
    · simp only [handleDatabaseError]
      rw [if_neg hc]
    · intro e' hc'
      exact ⟨_, by simp only [handleDatabaseError]; rw [if_neg hc']⟩
    · intro henv
      rw [if_neg henv]
    · intro henv
      rw [if_pos henv]

/-- Witness for C7: model `"User"` in production, a non-`P2025` error for
operation `create`, and a `P2025` error checked through the same theorem. -/
theorem handleDatabaseError_spec_witness :
    ((some "P1000" : Option String) = some "P2025" →
      handleDatabaseError "User" "production"
          { message := "boom", code := some "P1000" } "create" =
        AppError.notFound ("User" ++ " not found")) ∧
    ((some "P1000" : Option String) ≠ some "P2025" →
      ∃ msg details, handleDatabaseError "User" "production"
          { message := "boom", code := some "P1000" } "create" =
          AppError.database msg details ∧
        (∀ e' : DbError, e'.code ≠ some "P2025" → ∃ details',
          handleDatabaseError "User" "production" e' "create" =
            AppError.database msg details') ∧
        (("production" : String) ≠ "development" → details = none) ∧
        (("production" : String) = "development" →
          details = some ("boom", some "P1000"))) :=
  handleDatabaseError_spec "User" "production"
    { message := "boom", code := some "P1000" } "create"

/-! ### Filter objects and their composition -/

/-- A JS object used as a filter / where clause: an ordered association
list of properties. -/
abbrev JsObj : Type := List (String × JsVal)

/-- JS property read `o[k]`. -/
def objGet (o : JsObj) (k : String) : Option JsVal :=
  (o.find? (fun e => e.1 = k)).map (·.2)

/-- JS property write `o[k] = v`: overwrite the existing property in place,
else append a new one (JS property-order semantics). -/
def objSet (o : JsObj) (k : String) (v : JsVal) : JsObj :=
  match o with
  | [] => [(k, v)]
  | e :: rest =>
    if e.1 = k then (k, v) :: rest else e :: objSet rest k v

/-- The properties a JS value contributes when spread into an object
literal: objects contribute their fields, arrays contribute index-keyed
elements, primitives (and `null`/`undefined`) contribute nothing. -/
def spreadProps : JsVal → JsObj
  | .obj fs => fs
  | .arr xs => (xs.enum).map (fun p => (natToString p.1, p.2))
  | _ => []

/-- JS object spread `{...a, ...b}`: write each property of `b` over `a`. -/
def objSpread (a b : JsObj) : JsObj :=
  b.foldl (fun acc kv => objSet acc kv.1 kv.2) a

/-- `mergeFilters(current, addition)`: for each key of `addition`, an
object-valued addition (`typeof === 'object'`, non-null, non-array) is
shallow-spread over the current value —
`current[key] = (...(current[key] || (empty)), ...addition[key])` — and any
other value overwrites `current[key]`. A falsy or primitive current value
contributes no properties to the spread, which `spreadProps` captures. -/
def mergeFilters (current addition : JsObj) : JsObj :=
  addition.foldl (fun cur kv =>
    match kv.2 with
    | .obj fb =>
      objSet cur kv.1
        (JsVal.obj (objSpread (spreadProps ((objGet cur kv.1).getD .null)) fb))
    | v => objSet cur kv.1 v) current

/-- `applyFilters(query)`: fold the query's entries, merging the fragment
`filterMap[key](value)` for every defined value whose key has a registered
handler. The `filterMap` is the service's declarative
query-parameter-to-fragment mapping. -/
def applyFilters (filterMap : List (String × (JsVal → JsObj)))
    (query : List (String × Option JsVal)) : JsObj :=
  query.foldl (fun filters kv =>
    match kv.2, (filterMap.find? (fun e => e.1 = kv.1)).map (·.2) with
    | some v, some f => mergeFilters filters (f v)
    | _, _ => filters) []

/-- C9: applying a query whose two parameters produce object-valued
fragments for the same field — a minimum bound `(field: (gte: a))` and a
maximum bound `(field: (lte: b))` — deep-merges them into the combined
range condition `(field: (gte: a, lte: b))` instead of letting the second
fragment overwrite the first. -/
theorem applyFilters_deep_merges_range (k1 k2 fld : String) (a b : JsVal)
    (hk : k2 ≠ k1) :
    applyFilters
      [(k1, fun v => [(fld, JsVal.obj [("gte", v)])]),
       (k2, fun v => [(fld, JsVal.obj [("lte", v)])])]
      [(k1, some a), (k2, some b)] =
      [(fld, JsVal.obj [("gte", a), ("lte", b)])] := by
  have hf1 : List.find? (fun e => e.1 = k1)
      [(k1, fun v => [(fld, JsVal.obj [("gte", v)])]),
       (k2, fun v => [(fld, JsVal.obj [("lte", v)])])] =
      some (k1, fun v => [(fld, JsVal.obj [("gte", v)])]) :=
    List.find?_cons_of_pos _ (by simp)
  have hf2 : List.find? (fun e => e.1 = k2)
      [(k1, fun v => [(fld, JsVal.obj [("gte", v)])]),
       (k2, fun v => [(fld, JsVal.obj [("lte", v)])])] =
      some (k2, fun v => [(fld, JsVal.obj [("lte", v)])]) := by
    rw [List.find?_cons_of_neg _ (by simp [Ne.symm hk])]
    exact List.find?_cons_of_pos _ (by simp)
  unfold applyFilters
  simp only [List.foldl_cons, List.foldl_nil, hf1, hf2, Option.map_some]
  simp [mergeFilters, objGet, objSet, objSpread, spreadProps]

/-- Witness for C9 at concrete parameter names `minPrice`/`maxPrice`
targeting field `price` with bounds 10 and 99. -/
theorem applyFilters_deep_merges_range_witness :
    applyFilters
      [("minPrice", fun v => [("price", JsVal.obj [("gte", v)])]),
       ("maxPrice", fun v => [("price", JsVal.obj [("lte", v)])])]
      [("minPrice", some (JsVal.num 10)), ("maxPrice", some (JsVal.num 99))] =
      [("price", JsVal.obj [("gte", JsVal.num 10), ("lte", JsVal.num 99)])] :=
  applyFilters_deep_merges_range "minPrice" "maxPrice" "price"
    (JsVal.num 10) (JsVal.num 99) (by decide)

/-! ### The record store and the soft-delete / lookup pipeline -/

/-- A stored record as the base class's soft-delete, audit and lookup logic
sees it: the identity column, the soft-delete columns (`deletedAt`,
`isDeleted`), the audit columns, and the remaining domain columns as an
opaque object. `none` is SQL `NULL`. -/
structure Record where
  id : Int
  deletedAt : Option Int := none
  isDeleted : Bool := false
  createdAt : Option Int := none
  updatedAt : Option Int := none
  fields : JsObj := []

/-- The backing store, modelled as the ordered list of rows of the table. -/
abbrev Store : Type := List Record

/-- Models the external Prisma delegate: whether a record satisfies one
equality condition of a `where` object, over the column vocabulary this
development queries (`id`, `deletedAt`, `isDeleted`); conditions on other
columns do not constrain the modelled rows. -/
def matchesCond (r : Record) (k : String) (v : JsVal) : Bool :=
  if k = "id" then
    match v with
    | .num n => r.id = n
    | _ => false
  else if k = "deletedAt" then
    match v with
    | .null => r.deletedAt = none
    | .num n => r.deletedAt = some n
    | _ => false
  else if k = "isDeleted" then
    match v with
    | .bool b => r.isDeleted = b
    | _ => false
  else true

/-- A record matches a `where` object when it satisfies every condition. -/
def matchesWhere (r : Record) (w : JsObj) : Bool :=
  w.all (fun kv => matchesCond r kv.1 kv.2)

/-- Models the external Prisma `findFirst({where})`: the first matching row. -/
def findFirst (st : Store) (w : JsObj) : Option Record :=
  st.find? (fun r => matchesWhere r w)

/-- Models the external Prisma `update({where: {id}, data})`: apply the
update document `f` to the first row with the given id, in place; a missing
row raises the Prisma "record to update not found" error `P2025`. -/
def storeUpdate (st : Store) (id : Int) (f : Record → Record) :
    Except DbError (Store × Record) :=
  match st with
  | [] =>
    .error { message := "Record to update not found.", code := some "P2025" }
  | r :: rest =>
    if r.id = id then .ok (f r :: rest, f r)
    else (storeUpdate rest id f).map (fun p => (r :: p.1, p.2))

/-- Models the external Prisma `delete({where: {id}})`: remove the first row
with the given id, or raise `P2025`. -/
def storeDelete (st : Store) (id : Int) : Except DbError (Store × Record) :=
  match st with
  | [] =>
    .error { message := "Record to delete does not exist.", code := some "P2025" }
  | r :: rest =>
    if r.id = id then .ok (rest, r)
    else (storeDelete rest id).map (fun p => (r :: p.1, p.2))

/-- `buildWhereClause(filters)`: merge the soft-delete exclusion over the
filters (`{...filters, deletedAt: null}`) when soft delete is enabled. -/
def buildWhereClause (opts : BaseServiceOptions) (filters : JsObj) : JsObj :=
  if opts.enableSoftDelete then objSet filters "deletedAt" JsVal.null
  else filters

/-- `softDelete(id)`: update the record to `deletedAt: new Date(),
isDeleted: true` (no row removal); store failures are mapped by
`handleDatabaseError` under operation `softDelete`. `now` is the `new
Date()` timestamp. -/
def softDelete (modelName env : String) (st : Store) (now : Int) (id : Int) :
    Except AppError (Store × Record) :=
  match storeUpdate st id
      (fun r => { r with deletedAt := some now, isDeleted := true }) with
  | .ok p => .ok p
  | .error e => .error (handleDatabaseError modelName env e "softDelete")

/-- `findById(id)`: `findFirst` with `buildWhereClause({id})` — when soft
delete is enabled the `where` clause carries `deletedAt: null`, so
soft-deleted rows are excluded; absence is the normal `null` outcome. -/
def findById (opts : BaseServiceOptions) (st : Store) (id : Int) :
    Option Record :=
  findFirst st (buildWhereClause opts [("id", JsVal.num id)])

/-- The `{id, model, data}` payload broadcast after a successful mutation. -/
def broadcastPayload (modelName : String) (r : Record) : JsVal :=
  JsVal.obj [("id", JsVal.num r.id), ("model", JsVal.str modelName),
    ("data", JsVal.obj (("id", JsVal.num r.id) :: r.fields))]

/-- `deleteById(id, broadcastChannels?)`: soft delete when enabled, else
hard delete; on success broadcast `deleted` to the explicit channels only
(when the argument is passed and SSE is enabled). A failure of the soft
path re-enters `handleDatabaseError` under operation `deleteById` carrying
the already-wrapped error's message (an `AppError` has no Prisma `code`);
a failure of the hard path is mapped directly. -/
def deleteById (opts : BaseServiceOptions) (modelName env : String)
    (st : Store) (reg : Registry) (now : Int) (nowIso : String) (id : Int)
    (broadcastChannels : Option (List String)) :
    Except AppError (Store × Registry × Record) :=
  let attempt : Except AppError (Store × Record) :=
    if opts.enableSoftDelete then
      match softDelete modelName env st now id with
      | .ok p => .ok p
      | .error appErr =>
        .error (handleDatabaseError modelName env
          { message := appErr.message, code := none } "deleteById")
    else
      match storeDelete st id with
      | .ok p => .ok p
      | .error e => .error (handleDatabaseError modelName env e "deleteById")
  match attempt with
  | .error e => .error e
  | .ok (st', rec) =>
    let reg' :=
      match broadcastChannels with
      | some chans =>
        if opts.enableSSE then
          broadcastToChannels opts reg chans "deleted"
            (JsVal.obj [("id", JsVal.num id), ("model", JsVal.str modelName),
              ("data", JsVal.obj (("id", JsVal.num rec.id) :: rec.fields))])
            nowIso
        else reg
      | none => reg
    .ok (st', reg', rec)

/-- A successful `storeUpdate` on a table with duplicate-free ids: the hit
row is rewritten in place and every other row is untouched. -/
theorem storeUpdate_spec (id : Int) (f : Record → Record) :
    ∀ st : Store, (st.map Record.id).Nodup → ∀ r ∈ st, r.id = id →
      ∃ st', storeUpdate st id f = .ok (st', f r) ∧
        st'.length = st.length ∧
        ∀ x ∈ st', x = f r ∨ (x ∈ st ∧ x.id ≠ id) := by
  intro st
  induction st with
  | nil => intro _ r hr; exact absurd hr (List.not_mem_nil r)
  | cons h t ih =>
    intro hnd r hr hrid
    rw [List.map_cons, List.nodup_cons] at hnd
    by_cases hh : h.id = id
    · have hreq : r = h := by
        rcases List.mem_cons.mp hr with he | ht
        · exact he
        · exfalso
          apply hnd.1
          have hr' : r.id ∈ t.map Record.id := List.mem_map.mpr ⟨r, ht, rfl⟩
          rwa [hrid, ← hh] at hr'
      subst hreq
      refine ⟨f r :: t, ?_, by simp, ?_⟩
      · unfold storeUpdate
        rw [if_pos hh]
      · intro x hx
        rcases List.mem_cons.mp hx with he | ht
        · exact Or.inl he
        · refine Or.inr ⟨List.mem_cons_of_mem r ht, fun hxid => ?_⟩
          apply hnd.1
          have hx' : x.id ∈ t.map Record.id := List.mem_map.mpr ⟨x, ht, rfl⟩
          rwa [hxid, ← hh] at hx'
    · have hrt : r ∈ t := by
        rcases List.mem_cons.mp hr with he | ht
        · exact absurd (he ▸ hrid) hh
        · exact ht
      obtain ⟨st'', hok, hlen, hmem⟩ := ih hnd.2 r hrt hrid
      refine ⟨h :: st'', ?_, by simp [hlen], ?_⟩
      · unfold storeUpdate
        rw [if_neg hh, hok]
        rfl
      · intro x hx
        rcases List.mem_cons.mp hx with he | ht
        · exact Or.inr ⟨he ▸ List.mem_cons_self h t, he ▸ hh⟩
        · rcases hmem x ht with hfx | ⟨hxt, hxid⟩
          · exact Or.inl hfx
          · exact Or.inr ⟨List.mem_cons_of_mem h hxt, hxid⟩

/-- C8: with soft delete enabled, `deleteById(r.id)` updates the record in
place — same number of rows, deletion flag and timestamp set — and a
subsequent `findById(r.id)`, whose where clause merges the soft-delete
exclusion `deletedAt: null`, returns the not-found result `none`. -/
theorem deleteById_soft_then_findById_none (opts : BaseServiceOptions)
    (modelName env : String) (st : Store) (reg : Registry) (now : Int)
    (nowIso : String) (r : Record) (bc : Option (List String))
    (hsoft : opts.enableSoftDelete = true)
    (hnd : (st.map Record.id).Nodup)
    (hr : r ∈ st) :
    ∃ st' reg' res,
      deleteById opts modelName env st reg now nowIso r.id bc =
        .ok (st', reg', res) ∧
      st'.length = st.length ∧
      res.id = r.id ∧ res.isDeleted = true ∧ res.deletedAt = some now ∧
      findById opts st' r.id = none := by
  obtain ⟨st', hok, hlen, hmem⟩ := storeUpdate_spec r.id
    (fun x => { x with deletedAt := some now, isDeleted := true }) st hnd r hr
    rfl
  have hsd : softDelete modelName env st now r.id =
      .ok (st', { r with deletedAt := some now, isDeleted := true }) := by
    unfold softDelete
    rw [hok]
  have hwhere : buildWhereClause opts [("id", JsVal.num r.id)] =
      [("id", JsVal.num r.id), ("deletedAt", JsVal.null)] := by
    unfold buildWhereClause
    rw [if_pos hsoft]
    rfl
  have hfind : findById opts st' r.id = none := by
    unfold findById findFirst
    rw [hwhere, List.find?_eq_none]
    intro x hx
    rcases hmem x hx with hfx | ⟨_, hxid⟩
    · subst hfx
      simp [matchesWhere, matchesCond]
    · simp [matchesWhere, matchesCond, hxid]
  have hdel : ∃ reg', deleteById opts modelName env st reg now nowIso r.id bc =
      .ok (st', reg', { r with deletedAt := some now, isDeleted := true }) :=
    ⟨_, by unfold deleteById; rw [if_pos hsoft, hsd]⟩
  obtain ⟨reg', hdel⟩ := hdel
  exact ⟨st', reg', { r with deletedAt := some now, isDeleted := true },
    hdel, hlen, rfl, rfl, rfl, hfind⟩

/-- Witness for C8: a two-row table, soft-deleting row 1 then looking it up. -/
theorem deleteById_soft_then_findById_none_witness :
    ∃ st' reg' res,
      deleteById { enableSoftDelete := true } "User" "production"
          [{ id := 1 }, { id := 2 }] [] 1700 "T" (1 : Int) none =
        .ok (st', reg', res) ∧
      st'.length = ([{ id := 1 }, { id := 2 }] : Store).length ∧
      res.id = 1 ∧ res.isDeleted = true ∧ res.deletedAt = some 1700 ∧
      findById { enableSoftDelete := true } st' 1 = none :=
  deleteById_soft_then_findById_none { enableSoftDelete := true } "User"
    "production" [{ id := 1 }, { id := 2 }] [] 1700 "T" { id := 1 } none
    rfl (by simp) (by simp)

/-! ### create / updateById and their broadcast routing -/

/-- `prepareCreateData`: stamp `createdAt`/`updatedAt` when audit fields are
enabled. -/
def prepareCreateData (opts : BaseServiceOptions) (now : Int)
    (data : Record) : Record :=
  if opts.enableAuditFields then
    { data with createdAt := some now, updatedAt := some now }
  else data

/-- `prepareUpdateData`: the update document with `updatedAt` stamped when
audit fields are enabled; an update document is modelled as the function the
store applies to the matched row. -/
def prepareUpdateData (opts : BaseServiceOptions) (now : Int)
    (upd : Record → Record) : Record → Record :=
  fun r =>
    if opts.enableAuditFields then { upd r with updatedAt := some now }
    else upd r

/-- Models the external Prisma `create({data})`: append the row and return
the stored row. -/
def storeCreate (st : Store) (data : Record) : Store × Record :=
  (st ++ [data], data)

/-- `create(data, include?, broadcastChannels?)`: prepare and persist the
row; on success — with SSE enabled — broadcast `created` to the explicit
channel list when one is passed, and then unconditionally to the `"*"`
channel. Store failures are mapped by `handleDatabaseError` under
`create` (the failure path does not reach the broadcasts). -/
def create (opts : BaseServiceOptions) (modelName : String) (st : Store)
    (reg : Registry) (now : Int) (nowIso : String) (data : Record)
    (broadcastChannels : Option (List String)) :
    Store × Registry × Record :=
  let createData := prepareCreateData opts now data
  let res := storeCreate st createData
  let reg1 :=
    match broadcastChannels with
    | some chans =>
      if opts.enableSSE then
        broadcastToChannels opts reg chans "created"
          (broadcastPayload modelName res.2) nowIso
      else reg
    | none => reg
  let reg2 :=
    if opts.enableSSE then
      broadcastToChannel opts reg1 "*" "created"
        (broadcastPayload modelName res.2) nowIso
    else reg1
  (res.1, reg2, res.2)

/-- `updateById(id, data, include?, broadcastChannels?)`: apply the prepared
update document through the store; on success broadcast `updated` to the
explicitly requested channels only — no wildcard broadcast; store failures
are mapped under operation `updateById`. -/
def updateById (opts : BaseServiceOptions) (modelName env : String)
    (st : Store) (reg : Registry) (now : Int) (nowIso : String) (id : Int)
    (upd : Record → Record) (broadcastChannels : Option (List String)) :
    Except AppError (Store × Registry × Record) :=
  match storeUpdate st id (prepareUpdateData opts now upd) with
  | .error e => .error (handleDatabaseError modelName env e "updateById")
  | .ok (st', result) =>
    let reg' :=
      match broadcastChannels with
      | some chans =>
        if opts.enableSSE then
          broadcastToChannels opts reg chans "updated"
            (broadcastPayload modelName result) nowIso
        else reg
      | none => reg
    .ok (st', reg', result)

/-- A broadcast to a channel of all-live handles whose writes succeed
delivers one frame to every handle. -/
theorem broadcastToChannel_get_self_all_live (opts : BaseServiceOptions)
    (hsse : opts.enableSSE = true) (reg : Registry) (ch e : String)
    (d : JsVal) (now : String) (hs : List Handle)
    (hget : mapGet reg ch = some hs)
    (hnodup : (hs.map Handle.hid).Nodup)
    (hall : ∀ h ∈ hs, h.isDead = false ∧ h.writeOk = true) :
    mapGet (broadcastToChannel opts reg ch e d now) ch =
      some (hs.map (writeFrame e d)) := by
  have key := broadcastToChannel_get_self opts hsse reg ch e d now hs hget
    hnodup
  have hfs : hs.filter (fun h => !broadcastDead h) = hs :=
    List.filter_eq_self.mpr (fun h hm => by
      simp [broadcastDead, (hall h hm).1, (hall h hm).2])
  rw [hfs] at key
  rw [key, if_neg]
  rintro ⟨h1, h2⟩
  exact h1 (List.map_eq_nil_iff.mp h2)

/-- `broadcastToChannels` leaves channels outside its list untouched. -/
theorem broadcastToChannels_get_notMem (opts : BaseServiceOptions)
    (e : String) (d : JsVal) (now : String) :
    ∀ (chans : List String) (reg : Registry) (c : String), c ∉ chans →
      mapGet (broadcastToChannels opts reg chans e d now) c = mapGet reg c := by
  intro chans
  induction chans with
  | nil => intro reg c _; rfl
  | cons c0 rest ih =>
    intro reg c hc
    show mapGet (broadcastToChannels opts
      (broadcastToChannel opts reg c0 e d now) rest e d now) c = _
    rw [ih _ c (fun m => hc (List.mem_cons_of_mem _ m))]
    exact broadcastToChannel_get_ne opts reg c0 c e d now
      (fun e' => hc (e' ▸ List.mem_cons_self _ _))

/-- `broadcastToChannels` delivers one frame to every live handle of each
channel in its (duplicate-free) list. -/
theorem broadcastToChannels_get_mem (opts : BaseServiceOptions)
    (hsse : opts.enableSSE = true) (e : String) (d : JsVal) (now : String) :
    ∀ (chans : List String) (reg : Registry) (c : String)
      (hsC : List Handle), chans.Nodup → c ∈ chans →
      mapGet reg c = some hsC → (hsC.map Handle.hid).Nodup →
      (∀ h ∈ hsC, h.isDead = false ∧ h.writeOk = true) →
      mapGet (broadcastToChannels opts reg chans e d now) c =
        some (hsC.map (writeFrame e d)) := by
  intro chans
  induction chans with
  | nil =>
    intro reg c hsC _ hm
    exact absurd hm (List.not_mem_nil c)
  | cons c0 rest ih =>
    intro reg c hsC hnd hm hget hnodup hlive
    rw [List.nodup_cons] at hnd
    show mapGet (broadcastToChannels opts
      (broadcastToChannel opts reg c0 e d now) rest e d now) c = _
    rcases List.mem_cons.mp hm with he | hrest
    · subst he
      rw [broadcastToChannels_get_notMem opts e d now rest _ c hnd.1]
      exact broadcastToChannel_get_self_all_live opts hsse reg c e d now hsC
        hget hnodup hlive
    · have hne : c ≠ c0 := fun e' => hnd.1 (e' ▸ hrest)
      have hget' : mapGet (broadcastToChannel opts reg c0 e d now) c =
          some hsC := by
        rw [broadcastToChannel_get_ne opts reg c0 c e d now hne]
        exact hget
      exact ih _ c hsC hnd.2 hrest hget' hnodup hlive

/-- C6: on a successful `create` with SSE enabled, a `created` event reaches
every subscriber of each explicitly supplied channel and — even when no
channel list is supplied — every subscriber of the wildcard `"*"` channel;
a successful `updateById` broadcasts `updated` only to the explicitly
supplied channels: the `"*"` channel is untouched when it is not in the
list, and with no list the registry is untouched entirely. -/
theorem create_wildcard_updateById_optin (opts : BaseServiceOptions)
    (modelName env : String) (st : Store) (reg : Registry) (now : Int)
    (nowIso : String) (data : Record) (upd : Record → Record) (r : Record)
    (chans : List String) (c : String) (hsStar hsC : List Handle)
    (hsse : opts.enableSSE = true)
    (hstar : mapGet reg "*" = some hsStar)
    (hnodupStar : (hsStar.map Handle.hid).Nodup)
    (hliveStar : ∀ h ∈ hsStar, h.isDead = false ∧ h.writeOk = true)
    (hchansN : chans.Nodup)
    (hstarchans : "*" ∉ chans)
    (hcmem : c ∈ chans)
    (hgetC : mapGet reg c = some hsC)
    (hnodupC : (hsC.map Handle.hid).Nodup)
    (hliveC : ∀ h ∈ hsC, h.isDead = false ∧ h.writeOk = true)
    (hnd : (st.map Record.id).Nodup)
    (hr : r ∈ st) :
    (mapGet (create opts modelName st reg now nowIso data none).2.1 "*" =
      some (hsStar.map (writeFrame "created"
        (broadcastPayload modelName (prepareCreateData opts now data))))) ∧
    (mapGet (create opts modelName st reg now nowIso data (some chans)).2.1
        "*" =
      some (hsStar.map (writeFrame "created"
        (broadcastPayload modelName (prepareCreateData opts now data))))) ∧
    (mapGet (create opts modelName st reg now nowIso data (some chans)).2.1
        c =
      some (hsC.map (writeFrame "created"
        (broadcastPayload modelName (prepareCreateData opts now data))))) ∧
    (∃ st' reg' res,
      updateById opts modelName env st reg now nowIso r.id upd (some chans) =
        .ok (st', reg', res) ∧
      mapGet reg' "*" = mapGet reg "*" ∧
      mapGet reg' c = some (hsC.map (writeFrame "updated"
        (broadcastPayload modelName res)))) ∧
    (∃ st' res,
      updateById opts modelName env st reg now nowIso r.id upd none =
        .ok (st', reg, res)) := by
  have hcnstar : c ≠ "*" := fun e' => hstarchans (e' ▸ hcmem)
  have hpc : create opts modelName st reg now nowIso data none =
      (st ++ [prepareCreateData opts now data],
       broadcastToChannel opts reg "*" "created"
         (broadcastPayload modelName (prepareCreateData opts now data))
         nowIso,
       prepareCreateData opts now data) := by
    unfold create storeCreate
    rw [hsse]
    rfl
  have hpcs : create opts modelName st reg now nowIso data (some chans) =
      (st ++ [prepareCreateData opts now data],
       broadcastToChannel opts
         (broadcastToChannels opts reg chans "created"
           (broadcastPayload modelName (prepareCreateData opts now data))
           nowIso)
         "*" "created"
         (broadcastPayload modelName (prepareCreateData opts now data))
         nowIso,
       prepareCreateData opts now data) := by
    unfold create storeCreate
    rw [hsse]
    rfl
  obtain ⟨st₁, hok, hlen, hmem⟩ := storeUpdate_spec r.id
    (prepareUpdateData opts now upd) st hnd r hr rfl
  have hupds : updateById opts modelName env st reg now nowIso r.id upd
      (some chans) =
      .ok (st₁,
        broadcastToChannels opts reg chans "updated"
          (broadcastPayload modelName (prepareUpdateData opts now upd r))
          nowIso,
        prepareUpdateData opts now upd r) := by
    unfold updateById
    rw [hok, hsse]
    rfl
  have hupdn : updateById opts modelName env st reg now nowIso r.id upd
      none =
      .ok (st₁, reg, prepareUpdateData opts now upd r) := by
    unfold updateById
    rw [hok]
  refine ⟨?_, ?_, ?_, ?_, ?_⟩
  · rw [hpc]
    exact broadcastToChannel_get_self_all_live opts hsse reg "*" "created" _
      nowIso hsStar hstar hnodupStar hliveStar
  · rw [hpcs]
    have hmid : mapGet (broadcastToChannels opts reg chans "created"
        (broadcastPayload modelName (prepareCreateData opts now data))
        nowIso) "*" = some hsStar := by
      rw [broadcastToChannels_get_notMem opts _ _ nowIso chans reg "*"
        hstarchans]
      exact hstar
    exact broadcastToChannel_get_self_all_live opts hsse _ "*" "created" _
      nowIso hsStar hmid hnodupStar hliveStar
  · rw [hpcs]
    rw [broadcastToChannel_get_ne opts _ "*" c "created" _ nowIso hcnstar]
    exact broadcastToChannels_get_mem opts hsse "created" _ nowIso chans reg
      c hsC hchansN hcmem hgetC hnodupC hliveC
  · refine ⟨st₁, _, prepareUpdateData opts now upd r, hupds, ?_, ?_⟩
    · rw [broadcastToChannels_get_notMem opts _ _ nowIso chans reg "*"
        hstarchans]
    · exact broadcastToChannels_get_mem opts hsse "updated" _ nowIso chans
        reg c hsC hchansN hcmem hgetC hnodupC hliveC
  · exact ⟨st₁, prepareUpdateData opts now upd r, hupdn⟩

/-- Witness for C6: wildcard subscriber 9, channel `"orders"` subscriber 1,
a one-row store; create with and without a channel list, update with and
without one. -/
theorem create_wildcard_updateById_optin_witness :
    (mapGet (create { enableSSE := true } "User" [{ id := 1 }]
        [("*", [⟨9, false, false, true, ""⟩]),
         ("orders", [⟨1, false, false, true, ""⟩])] 0 "T" { id := 2 }
        none).2.1 "*" =
      some ([⟨9, false, false, true, ""⟩].map (writeFrame "created"
        (broadcastPayload "User"
          (prepareCreateData { enableSSE := true } 0 { id := 2 }))))) ∧
    (mapGet (create { enableSSE := true } "User" [{ id := 1 }]
        [("*", [⟨9, false, false, true, ""⟩]),
         ("orders", [⟨1, false, false, true, ""⟩])] 0 "T" { id := 2 }
        (some ["orders"])).2.1 "*" =
      some ([⟨9, false, false, true, ""⟩].map (writeFrame "created"
        (broadcastPayload "User"
          (prepareCreateData { enableSSE := true } 0 { id := 2 }))))) ∧
    (mapGet (create { enableSSE := true } "User" [{ id := 1 }]
        [("*", [⟨9, false, false, true, ""⟩]),
         ("orders", [⟨1, false, false, true, ""⟩])] 0 "T" { id := 2 }
        (some ["orders"])).2.1 "orders" =
      some ([⟨1, false, false, true, ""⟩].map (writeFrame "created"
        (broadcastPayload "User"
          (prepareCreateData { enableSSE := true } 0 { id := 2 }))))) ∧
    (∃ st' reg' res,
      updateById { enableSSE := true } "User" "production" [{ id := 1 }]
          [("*", [⟨9, false, false, true, ""⟩]),
           ("orders", [⟨1, false, false, true, ""⟩])] 0 "T"
          ({ id := 1 } : Record).id (fun x => x) (some ["orders"]) =
        .ok (st', reg', res) ∧
      mapGet reg' "*" =
        mapGet [("*", [⟨9, false, false, true, ""⟩]),
          ("orders", [⟨1, false, false, true, ""⟩])] "*" ∧
      mapGet reg' "orders" = some ([⟨1, false, false, true, ""⟩].map
        (writeFrame "updated" (broadcastPayload "User" res)))) ∧
    (∃ st' res,
      updateById { enableSSE := true } "User" "production" [{ id := 1 }]
          [("*", [⟨9, false, false, true, ""⟩]),
           ("orders", [⟨1, false, false, true, ""⟩])] 0 "T"
          ({ id := 1 } : Record).id (fun x => x) none =
        .ok (st',
          [("*", [⟨9, false, false, true, ""⟩]),
           ("orders", [⟨1, false, false, true, ""⟩])], res)) :=
  create_wildcard_updateById_optin { enableSSE := true } "User" "production"
    [{ id := 1 }]
    [("*", [⟨9, false, false, true, ""⟩]),
     ("orders", [⟨1, false, false, true, ""⟩])] 0 "T" { id := 2 }
    (fun x => x) { id := 1 } ["orders"] "orders"
    [⟨9, false, false, true, ""⟩] [⟨1, false, false, true, ""⟩]
    rfl rfl (by decide) (by decide) (by decide) (by decide) (by decide)
    rfl (by decide) (by decide) (by decide) (List.mem_singleton.mpr rfl)

/-! ### Unique slug generation -/

/-- Value of a decimal digit character. -/
def charVal (c : Char) : Nat := c.toNat - '0'.toNat

/-- Decode a little-endian decimal digit list (left inverse of
`natDigitsAux`). -/
def decodeDigits : List Char → Nat
  | [] => 0
  | c :: cs => charVal c + 10 * decodeDigits cs

theorem charVal_digitChar (d : Nat) (hd : d < 10) :
    charVal (Nat.digitChar d) = d := by
  have hall : ∀ d < 10, charVal (Nat.digitChar d) = d := by decide
  exact hall d hd

theorem decodeDigits_natDigitsAux :
    ∀ fuel n, n < fuel → decodeDigits (natDigitsAux fuel n) = n := by
  intro fuel
  induction fuel with
  | zero => intro n hn; omega
  | succ f ih =>
    intro n hn
    by_cases h0 : n = 0
    · subst h0; rfl
    · have hred : natDigitsAux (f + 1) n =
          Nat.digitChar (n % 10) :: natDigitsAux f (n / 10) := by
        cases n with
        | zero => exact absurd rfl h0
        | succ m => rfl
      rw [hred]
      unfold decodeDigits
      rw [charVal_digitChar _ (Nat.mod_lt _ (by omega))]
      rw [ih (n / 10) (by
        have := Nat.div_lt_self (by omega : 0 < n) (by omega : 1 < 10)
        omega)]
      omega

theorem natToString_inj :
    ∀ m n : Nat, natToString m = natToString n → m = n := by
  have hzero : ∀ n : Nat, n ≠ 0 →
      natToString n ≠ "0" := by
    intro n hn hcon
    unfold natToString at hcon
    rw [if_neg hn] at hcon
    have hdata : (natDigitsAux (n + 1) n).reverse = ['0'] :=
      congrArg String.data hcon
    have hl : natDigitsAux (n + 1) n = ['0'] := by
      have := congrArg List.reverse hdata
      simpa using this
    have hdec := decodeDigits_natDigitsAux (n + 1) n (by omega)
    rw [hl] at hdec
    simp [decodeDigits, charVal] at hdec
    omega
  intro m n h
  by_cases hm : m = 0 <;> by_cases hn : n = 0
  · omega
  · subst hm
    exact absurd h.symm (by
      have := hzero n hn
      simpa [natToString] using this)
  · subst hn
    exact absurd h (by
      have := hzero m hm
      simpa [natToString] using this)
  · unfold natToString at h
    rw [if_neg hm, if_neg hn] at h
    have hdata : (natDigitsAux (m + 1) m).reverse =
        (natDigitsAux (n + 1) n).reverse := congrArg String.data h
    have hl := List.reverse_injective hdata
    have h1 := decodeDigits_natDigitsAux (m + 1) m (by omega)
    have h2 := decodeDigits_natDigitsAux (n + 1) n (by omega)
    rw [hl] at h1
    omega

/-- The candidate slug with counter `k`:
`` `${baseSlug}-${counter}` ``. -/
def slugCandidate (base : String) (k : Nat) : String :=
  base ++ "-" ++ natToString k

theorem slugCandidate_inj (base : String) :
    ∀ j k : Nat, slugCandidate base j = slugCandidate base k → j = k := by
  intro j k h
  unfold slugCandidate at h
  have hd := congrArg String.data h
  rw [String.data_append, String.data_append, String.data_append,
    String.data_append, List.append_assoc, List.append_assoc] at hd
  have h1 := List.append_cancel_left hd
  have h2 := List.append_cancel_left h1
  exact natToString_inj j k (String.ext h2)

/-- The `startsWith` predicate of the store's slug-prefix query, over the
characters of the strings. -/
def strStartsWith (pre t : String) : Bool :=
  pre.data.isPrefixOf t.data

theorem strStartsWith_refl (s : String) : strStartsWith s s = true :=
  List.isPrefixOf_iff_prefix.mpr (List.prefix_refl _)

theorem strStartsWith_append (s t : String) :
    strStartsWith s (s ++ t) = true := by
  unfold strStartsWith
  rw [String.data_append]
  exact List.isPrefixOf_iff_prefix.mpr (List.prefix_append _ _)

theorem strStartsWith_slugCandidate (base : String) (k : Nat) :
    strStartsWith base (slugCandidate base k) = true := by
  unfold slugCandidate
  rw [String.append_assoc]
  exact strStartsWith_append base _

/-- Not every one of `|s| + 1` consecutive candidate slugs can be an
existing slug: they are pairwise distinct. -/
theorem exists_free_candidate (s : List String) (base : String) (k : Nat) :
    ¬(∀ j, k ≤ j → j < k + (s.length + 1) → slugCandidate base j ∈ s) := by
  intro hall
  have hinj : Function.Injective (fun i : Nat => slugCandidate base (k + i)) := by
    intro a b hab
    have := slugCandidate_inj base (k + a) (k + b) hab
    omega
  have hnd : ((List.range (s.length + 1)).map
      (fun i => slugCandidate base (k + i))).Nodup :=
    List.Nodup.map hinj (List.nodup_range _)
  have hsub : ∀ x ∈ (List.range (s.length + 1)).map
      (fun i => slugCandidate base (k + i)), x ∈ s := by
    intro x hx
    obtain ⟨i, hi, rfl⟩ := List.mem_map.mp hx
    exact hall (k + i) (by omega) (by
      have := List.mem_range.mp hi
      omega)
  have hc1 : ((List.range (s.length + 1)).map
      (fun i => slugCandidate base (k + i))).toFinset.card = s.length + 1 := by
    rw [List.toFinset_card_of_nodup hnd]
    simp
  have hc2 : ((List.range (s.length + 1)).map
      (fun i => slugCandidate base (k + i))).toFinset ⊆ s.toFinset :=
    fun x hx => List.mem_toFinset.mpr (hsub x (List.mem_toFinset.mp hx))
  have hc3 := Finset.card_le_card hc2
  have hc4 := s.toFinset_card_le
  omega

/-- The `while (existingSet.has(slug))` loop of `generateUniqueSlug`
starting at counter `k`, with explicit iteration fuel. -/
def findFreeSlug (s : List String) (base : String) : Nat → Nat → String
  | _, 0 => ""
  | k, fuel + 1 =>
    if slugCandidate base k ∈ s then findFreeSlug s base (k + 1) fuel
    else slugCandidate base k

/-- Whenever the fuelled search window is guaranteed to contain a free
candidate, the loop returns the first free candidate at or after `k`. -/
theorem findFreeSlug_spec (s : List String) (base : String) :
    ∀ (fuel k : Nat),
      ¬(∀ j, k ≤ j → j < k + fuel → slugCandidate base j ∈ s) →
      ∃ m, k ≤ m ∧ findFreeSlug s base k fuel = slugCandidate base m ∧
        slugCandidate base m ∉ s ∧
        ∀ j, k ≤ j → j < m → slugCandidate base j ∈ s := by
  intro fuel
  induction fuel with
  | zero =>
    intro k hk
    exact absurd (fun j hj1 hj2 => absurd hj2 (by omega)) hk
  | succ f ih =>
    intro k hk
    by_cases hc : slugCandidate base k ∈ s
    · have hk' : ¬(∀ j, k + 1 ≤ j → j < (k + 1) + f →
          slugCandidate base j ∈ s) := by
        intro hall
        apply hk
        intro j hj1 hj2
        by_cases hjk : j = k
        · subst hjk; exact hc
        · exact hall j (by omega) (by omega)
      obtain ⟨m, hm1, hm2, hm3, hm4⟩ := ih (k + 1) hk'
      refine ⟨m, by omega, ?_, hm3, ?_⟩
      · show findFreeSlug s base k (f + 1) = _
        unfold findFreeSlug
        rw [if_pos hc]
        exact hm2
      · intro j hj1 hj2
        by_cases hjk : j = k
        · subst hjk; exact hc
        · exact hm4 j (by omega) hj2
    · refine ⟨k, le_refl k, ?_, hc,
        fun j hj1 hj2 => absurd hj1 (by omega)⟩
      unfold findFreeSlug
      rw [if_neg hc]

/-- `generateUniqueSlug(title, excludeId?)`: derive the base slug from the
title through the external `slugify` library (passed in as `slugifyFn`);
fetch the slugs of every record whose slug starts with the base slug,
excluding the record being updated when `excludeId` is passed; return the
base slug if free, else append the first free positive counter. The
unbounded `while` loop of the source is run with enough fuel to be
exhaustive (`findFreeSlug_spec`, `exists_free_candidate`). -/
def generateUniqueSlug (slugifyFn : String → String)
    (records : List (Int × String)) (excludeId : Option Int)
    (title : String) : String :=
  let baseSlug := slugifyFn title
  let existingSlugs := (records.filter (fun rec =>
    strStartsWith baseSlug rec.2 && !(excludeId = some rec.1 : Bool))).map
    (fun rec => rec.2)
  if baseSlug ∈ existingSlugs then
    findFreeSlug existingSlugs baseSlug 1 (existingSlugs.length + 1)
  else baseSlug

/-- C5: when the normalized base slug `b` of the title is not among the
(visible) existing slugs, `generateUniqueSlug` returns `b`; when `b` is
taken it returns `b-k` for the smallest positive `k` such that `b-k` is
free; with existing slugs `post` and `post-1` and a title normalizing to
`post`, it returns `post-2`. -/
theorem generateUniqueSlug_spec (slugifyFn : String → String)
    (records : List (Int × String)) (excludeId : Option Int)
    (title b : String)
    (hslug : slugifyFn title = b) :
    (b ∉ (records.filter (fun rec => !(excludeId = some rec.1 : Bool))).map
        (fun rec => rec.2) →
      generateUniqueSlug slugifyFn records excludeId title = b) ∧
    (b ∈ (records.filter (fun rec => !(excludeId = some rec.1 : Bool))).map
        (fun rec => rec.2) →
      ∃ k, 1 ≤ k ∧
        generateUniqueSlug slugifyFn records excludeId title =
          b ++ "-" ++ natToString k ∧
        (b ++ "-" ++ natToString k) ∉
          (records.filter (fun rec => !(excludeId = some rec.1 : Bool))).map
            (fun rec => rec.2) ∧
        ∀ j, 1 ≤ j → j < k →
          (b ++ "-" ++ natToString j) ∈
            (records.filter (fun rec => !(excludeId = some rec.1 : Bool))).map
              (fun rec => rec.2)) ∧
    generateUniqueSlug (fun _ => "post") [(1, "post"), (2, "post-1")] none
      "Post" = "post-2" := by
  have hiff : ∀ t : String, strStartsWith b t = true →
      (t ∈ (records.filter (fun rec =>
          strStartsWith b rec.2 && !(excludeId = some rec.1 : Bool))).map
          (fun rec => rec.2) ↔
        t ∈ (records.filter (fun rec =>
          !(excludeId = some rec.1 : Bool))).map (fun rec => rec.2)) := by
    intro t hpre
    simp only [List.mem_map, List.mem_filter]
    constructor
    · rintro ⟨rec, ⟨hrec, hcond⟩, rfl⟩
      rw [Bool.and_eq_true] at hcond
      exact ⟨rec, ⟨hrec, hcond.2⟩, rfl⟩
    · rintro ⟨rec, ⟨hrec, hcond⟩, rfl⟩
      refine ⟨rec, ⟨hrec, ?_⟩, rfl⟩
      rw [Bool.and_eq_true]
      exact ⟨hpre, hcond⟩
  have hgen : generateUniqueSlug slugifyFn records excludeId title =
      (if b ∈ (records.filter (fun rec =>
          strStartsWith b rec.2 && !(excludeId = some rec.1 : Bool))).map
          (fun rec => rec.2) then
        findFreeSlug ((records.filter (fun rec =>
          strStartsWith b rec.2 && !(excludeId = some rec.1 : Bool))).map
          (fun rec => rec.2)) b 1
          (((records.filter (fun rec =>
            strStartsWith b rec.2 && !(excludeId = some rec.1 : Bool))).map
            (fun rec => rec.2)).length + 1)
      else b) := by
    unfold generateUniqueSlug
    rw [hslug]
  refine ⟨?_, ?_, by decide⟩
  · intro hb
    rw [hgen, if_neg (fun hmem =>
      hb ((hiff b (strStartsWith_refl b)).mp hmem))]
  · intro hb
    have hbe := (hiff b (strStartsWith_refl b)).mpr hb
    rw [hgen, if_pos hbe]
    obtain ⟨m, hm1, hm2, hm3, hm4⟩ := findFreeSlug_spec
      ((records.filter (fun rec =>
        strStartsWith b rec.2 && !(excludeId = some rec.1 : Bool))).map
        (fun rec => rec.2)) b _ 1
      (exists_free_candidate _ b 1)
    refine ⟨m, hm1, hm2, ?_, ?_⟩
    · intro hmem
      exact hm3 ((hiff _ (strStartsWith_slugCandidate b m)).mpr hmem)
    · intro j hj1 hj2
      exact (hiff _ (strStartsWith_slugCandidate b j)).mp (hm4 j hj1 hj2)

/-- Witness for C5 at the concrete scenario: records with slugs `post` and
`post-1`, no exclusion, title normalizing to `post`. -/
theorem generateUniqueSlug_spec_witness :
    (("post" : String) ∉ ([(1, "post"), (2, "post-1")].filter
        (fun rec : Int × String => !((none : Option Int) = some rec.1 : Bool))).map
        (fun rec => rec.2) →
      generateUniqueSlug (fun _ => "post") [(1, "post"), (2, "post-1")] none
        "Post" = "post") ∧
    (("post" : String) ∈ ([(1, "post"), (2, "post-1")].filter
        (fun rec : Int × String => !((none : Option Int) = some rec.1 : Bool))).map
        (fun rec => rec.2) →
      ∃ k, 1 ≤ k ∧
        generateUniqueSlug (fun _ => "post") [(1, "post"), (2, "post-1")]
          none "Post" = "post" ++ "-" ++ natToString k ∧
        ("post" ++ "-" ++ natToString k) ∉
          ([(1, "post"), (2, "post-1")].filter
            (fun rec : Int × String =>
              !((none : Option Int) = some rec.1 : Bool))).map
            (fun rec => rec.2) ∧
        ∀ j, 1 ≤ j → j < k →
          ("post" ++ "-" ++ natToString j) ∈
            ([(1, "post"), (2, "post-1")].filter
              (fun rec : Int × String =>
                !((none : Option Int) = some rec.1 : Bool))).map
              (fun rec => rec.2)) ∧
    generateUniqueSlug (fun _ => "post") [(1, "post"), (2, "post-1")] none
      "Post" = "post-2" :=
  generateUniqueSlug_spec (fun _ => "post") [(1, "post"), (2, "post-1")]
    none "Post" "post" rfl

end Ignitor
